import Mathlib

/-!
Shallow embedding of the mikufans-bvc-server HTTP/1.1 server
(src/main.rs, src/proto.rs, src/utils.rs) and proofs about its
request parsing, range resolution, session loop and idle tracking.

Strings read from the wire are modelled as `List Char`; parsed header
names and values are stored as `String`.  Machine `u64` arithmetic is
modelled on `Nat` with explicit wrap-around where Rust overflow matters.
-/

deriving instance DecidableEq for Except

/-- Character-class test for HTTP token characters, the set accepted by the
`http` crate for method and header-name bytes: digits, letters and the
symbols with codes 33, 35, 36, 37, 38, 39, 42, 43, 45, 46, 94, 95, 96,
124, 126. -/
def isTokenChar (c : Char) : Bool :=
  let n := c.toNat
  (48 ≤ n && n ≤ 57) || (65 ≤ n && n ≤ 90) || (97 ≤ n && n ≤ 122) ||
  n == 33 || n == 35 || n == 36 || n == 37 || n == 38 || n == 39 ||
  n == 42 || n == 43 || n == 45 || n == 46 || n == 94 || n == 95 ||
  n == 96 || n == 124 || n == 126

/-- Character-class test for HTTP header values as accepted by the `http`
crate: horizontal tab or visible ASCII plus space (codes 32 to 126). -/
def isHeaderValueChar (c : Char) : Bool :=
  let n := c.toNat
  n == 9 || (32 ≤ n && n ≤ 126)

/-- Character-class test for URI references.  Modelled from the spec: the
target is "a URI-reference; only the path component is used for routing"
(parsing itself is delegated to the external `fluent_uri` crate, which is
not under src/).  Allowed are alphanumerics and the RFC 3986 symbol set. -/
def isUriChar (c : Char) : Bool :=
  c.isAlphanum || "-._~:/?#[]@!$&()*+,;=".toList.contains c ||
  c.toNat == 0x27 || c.toNat == 0x25

/-- ASCII lower-casing of one character, as the `http` crate applies to
header names (codes 65 to 90 are shifted by 32). -/
def charToLower (c : Char) : Char :=
  if 65 ≤ c.toNat && c.toNat ≤ 90 then Char.ofNat (c.toNat + 32) else c

/-- Whitespace test used by `trim`; ASCII restriction of Rust's
`char::is_whitespace`. -/
def isWhitespaceChar (c : Char) : Bool :=
  c = ' ' || c = '\t' || c = '\n' || c = '\r'

/-- Embedding of Rust `str::trim`: drop whitespace from both ends. -/
def trimChars (l : List Char) : List Char :=
  ((l.dropWhile isWhitespaceChar).reverse.dropWhile isWhitespaceChar).reverse

/-- Embedding of Rust `str::split(c)`: split a character list at every
occurrence of `c`; always returns at least one (possibly empty) piece. -/
def splitOnChar (c : Char) : List Char → List (List Char)
  | [] => [[]]
  | x :: xs =>
    let r := splitOnChar c xs
    if x = c then [] :: r
    else (x :: r.headD []) :: r.tail

/-- Embedding of Rust `str::split_once(c)`: split at the first occurrence
of `c`, or `none` when `c` does not occur. -/
def splitOnceChar (c : Char) : List Char → Option (List Char × List Char)
  | [] => none
  | x :: xs =>
    if x = c then some ([], xs)
    else (splitOnceChar c xs).map (fun p => (x :: p.1, p.2))

/-- Digits-only numeral reader used by the range-header grammar. -/
def parseNat (l : List Char) : Option Nat :=
  if l ≠ [] ∧ l.all (fun c => c.isDigit) then
    some (l.foldl (fun a c => a * 10 + (c.toNat - 48)) 0)
  else none

/-! ## HTTP message decoding, from src/proto.rs -/

/-- Header maps: ordered association lists of lower-cased names to values,
the embedding of the `http` crate's `HeaderMap` as used by the server. -/
abbrev Headers : Type := List (String × String)

/-- Embedding of `HeaderMap::insert`: replace the value of an existing
name in place, otherwise append the pair. -/
def insertH (h : Headers) (k v : String) : Headers :=
  if h.any (fun p => p.1 = k) then
    h.map (fun p => if p.1 = k then (k, v) else p)
  else h ++ [(k, v)]

/-- Embedding of `HeaderMap::get`: value of the first pair with the given
name. -/
def lookupH (h : Headers) (k : String) : Option String :=
  (h.find? (fun p => p.1 = k)).map (fun p => p.2)

/-- The parsed request of src/proto.rs: method token, request target and
header map (the source's `method`, `request_uri`, `headers`). -/
structure Request where
  method : String
  target : String
  headers : List (String × String)
deriving DecidableEq, Repr

/-- Parse-error kinds of src/proto.rs `Error`: `RequestLine`,
`RequestLineMethod`, `RequestLineUri`, `HTTPVersion`, `Header`. -/
inductive ProtoError
  | requestLine
  | requestLineMethod
  | requestLineUri
  | httpVersion
  | header
deriving DecidableEq, Repr

/-- Embedding of the `http` crate's `Method::from_bytes`: any non-empty
sequence of token characters is a method (standard or extension), kept
verbatim; anything else is rejected. -/
def methodFromBytes (l : List Char) : Option String :=
  if l ≠ [] ∧ l.all isTokenChar then some (String.mk l) else none

/-- Uri-reference acceptance.  Modelled from the spec: `fluent_uri` (an
external crate, not under src/) accepts RFC 3986 URI references; we accept
any sequence of URI characters and keep it verbatim. -/
def uriParseRef (l : List Char) : Option String :=
  if l.all isUriChar then some (String.mk l) else none

/-- Path component of a target.  Modelled from the spec: "only the path
component is used for routing"; for the origin-form targets this server
routes on, the path is everything before the first query or fragment
delimiter. -/
def uriPath (t : String) : List Char :=
  t.toList.takeWhile (fun c => !(c = '?' || c = '#'))

/-- Embedding of the `http` crate's `HeaderName::from_bytes`: non-empty
token characters, lower-cased. -/
def headerNameFromBytes (l : List Char) : Option String :=
  if l ≠ [] ∧ l.all isTokenChar then some (String.mk (l.map charToLower)) else none

/-- Embedding of `HeaderValue::from_str` (reached through `.parse()`):
accepts visible ASCII, space and horizontal tab. -/
def headerValueFromStr (l : List Char) : Option String :=
  if l.all isHeaderValueChar then some (String.mk l) else none

/-- Header-block loop of `Request::handle` (src/proto.rs lines 89-105):
read lines until an empty one; a missing terminator, a line without a
colon, a bad name or a bad value are all `Error::Header`; each parsed
header is inserted (overwriting same-named earlier ones). -/
def parseHeaders : List (List Char) → List (String × String) →
    Except ProtoError (List (String × String))
  | [], _ => .error .header
  | l :: rest, acc =>
    if l = [] then .ok acc
    else
      match splitOnceChar ':' l with
      | none => .error .header
      | some (n, v) =>
        match headerNameFromBytes n with
        | none => .error .header
        | some name =>
          match headerValueFromStr (trimChars v) with
          | none => .error .header
          | some value => parseHeaders rest (insertH acc name value)

/-- Embedding of `Request::handle` (src/proto.rs lines 55-108) over the
stream's lines: no line at all is "no request" (`none`); the request line
is split on single spaces, the first token parsed as a method, the second
as a URI reference, and the third must equal `HTTP/1.1`; then the header
block is read.  Error kinds follow the source's `context` calls. -/
def parseRequest (lines : List (List Char)) : Except ProtoError (Option Request) :=
  match lines with
  | [] => .ok none
  | startLine :: rest =>
    match splitOnChar ' ' startLine with
    | [] => .error .requestLineMethod
    | t1 :: restToks =>
      match methodFromBytes t1 with
      | none => .error .requestLineMethod
      | some m =>
        match restToks with
        | [] => .error .requestLineUri
        | t2 :: restToks2 =>
          match uriParseRef t2 with
          | none => .error .requestLineUri
          | some target =>
            match restToks2 with
            | [] => .error .requestLine
            | t3 :: _ =>
              if t3 = "HTTP/1.1".toList then
                match parseHeaders rest [] with
                | .error e => .error e
                | .ok hs => .ok (some ⟨m, target, hs⟩)
              else .error .httpVersion

/-! ## Range resolution and request handling, from src/main.rs -/

/-- Start of a parsed range unit: the `http_range_header` crate's
`StartPosition` (`Index` or `FromLast`). -/
inductive StartPosition
  | index (i : Nat)
  | fromLast (i : Nat)
deriving DecidableEq, Repr

/-- End of a parsed range unit: the `http_range_header` crate's
`EndPosition` (`Index` or `LastByte`); the source field `end` is named
`endPos` here because `end` is reserved. -/
inductive EndPosition
  | index (i : Nat)
  | lastByte
deriving DecidableEq, Repr

/-- One syntactically correct range unit, the `http_range_header` crate's
`SyntacticallyCorrectRange`. -/
structure SyntacticallyCorrectRange where
  start : StartPosition
  endPos : EndPosition
deriving DecidableEq, Repr

/-- Range-header grammar.  Modelled from the spec: the external
`http_range_header` crate (not under src/) parses the raw header; per the
spec the recognised forms are `bytes=START-END` and `bytes=-N` (suffix
length), with `bytes=START-` meaning "to end of resource", and a header
may hold several comma-separated units. -/
def parseRangeHeaderSpec (v : List Char) : Option (List SyntacticallyCorrectRange) :=
  if "bytes=".toList.isPrefixOf v then
    (splitOnChar ',' (v.drop 6)).mapM (fun u =>
      let u := trimChars u
      match splitOnceChar '-' u with
      | none => none
      | some (a, b) =>
        if a = [] then
          (parseNat b).map (fun n => ⟨.fromLast n, .lastByte⟩)
        else
          (parseNat a).bind (fun s =>
            if b = [] then some ⟨.index s, .lastByte⟩
            else (parseNat b).map (fun e => ⟨.index s, .index e⟩)))
  else none

/-- Embedding of `u64::checked_sub`. -/
def checkedSub (a b : Nat) : Option Nat :=
  if b ≤ a then some (a - b) else none

/-- Embedding of `Option::take_if` on a numeric option. -/
def optTakeIf (p : Nat → Bool) : Option Nat → Option Nat
  | some v => if p v then some v else none
  | none => none

/-- Embedding of `Option::zip`. -/
def optZip : Option Nat → Option Nat → Option (Nat × Nat)
  | some a, some b => some (a, b)
  | _, _ => none

/-- The modulus of 64-bit machine arithmetic. -/
def U64 : Nat := 2 ^ 64

/-- Wrapping 64-bit subtraction, the release-mode semantics of the
source's `end - start` on `u64` (debug builds abort on the same
underflow). -/
def u64Sub (a b : Nat) : Nat :=
  (a % U64 + (U64 - b % U64)) % U64

/-- Range resolution of src/main.rs lines 191-204: the start position is
an absolute index or `file_length.checked_sub` of a suffix length, kept
only when at most `file_length`; the end position is an absolute index at
most `file_length`, or `file_length` itself for `LastByte`; both must be
present. -/
def resolveRange (r : SyntacticallyCorrectRange) (fileLength : Nat) :
    Option (Nat × Nat) :=
  optZip
    (optTakeIf (fun idx => idx ≤ fileLength)
      (match r.start with
        | .index idx => some idx
        | .fromLast idx => checkedSub fileLength idx))
    (match r.endPos with
      | .index idx => if idx ≤ fileLength then some idx else none
      | .lastByte => some fileLength)

/-- The response of src/proto.rs: status code, header map, optional body
bytes (streamed file payloads are carried separately). -/
structure HttpResponse where
  status : Nat
  headers : Headers
  body : Option (List Nat)
deriving DecidableEq, Repr

/-- The crate name baked in by `CARGO_PKG_NAME` (the repository's package
name; Cargo.toml is not under src/). -/
def pkgName : String := "mikufans-bvc-server"

/-- Body bytes of the identification reply, `pkgName` as UTF-8. -/
def pkgNameBytes : List Nat := pkgName.toList.map Char.toNat

/-- Embedding of `Response::default` (src/proto.rs lines 124-143): status
200 with `Server`, `Content-Type: application/octet-stream` and
`Connection: keep-alive` pre-populated, no body. -/
def respDefault : HttpResponse :=
  { status := 200,
    headers := [("server", pkgName),
                ("content-type", "application/octet-stream"),
                ("connection", "keep-alive")],
    body := none }

/-- Embedding of `Response::status` (src/proto.rs lines 146-153). -/
def respStatus (status : Nat) : HttpResponse :=
  { respDefault with status := status }

/-- Header finalisation of `Response::write_to_stream` (src/proto.rs
lines 212-220): when a body is present its length overwrites
`Content-Length` before the headers are emitted. -/
def writtenResp (r : HttpResponse) : HttpResponse :=
  match r.body with
  | some b => { r with headers := insertH r.headers "content-length" (toString b.length) }
  | none => r

/-- Outcome of one `handler` call under successful socket writes: the
written response (if a request was decoded) with the bytes streamed after
it, and the `Ok(can_continue)` flag. -/
structure HandlerOk where
  response : Option (HttpResponse × List Nat)
  canContinue : Bool
deriving DecidableEq, Repr

/-- Status of the written response, if any. -/
def HandlerOk.status? (h : HandlerOk) : Option Nat :=
  h.response.map (fun p => p.1.status)

/-- Named header of the written response, if any. -/
def HandlerOk.header? (h : HandlerOk) (k : String) : Option String :=
  h.response.bind (fun p => lookupH p.1.headers k)

/-- Bytes streamed after the response headers (empty when no request was
decoded). -/
def HandlerOk.streamed (h : HandlerOk) : List Nat :=
  (h.response.map (fun p => p.2)).getD []

/-- Errors `handler` can return (src/main.rs): a decode error propagated
by `?` from `Request::handle`, or a failed `File::open` of the resource. -/
inductive ProcErr
  | proto (e : ProtoError)
  | fileOpen
deriving DecidableEq, Repr

/-- CORS headers attached on the resource path (src/main.rs lines
156-173). -/
def corsHeaders (h : Headers) : Headers :=
  insertH (insertH (insertH (insertH h
    "access-control-allow-origin" "https://www.bilibili.com")
    "access-control-allow-methods" "GET, POST, PUT, DELETE, HEAD")
    "access-control-expose-headers" "Content-Length,Content-Range")
    "access-control-max-age" "0"

/-- Whole-resource reply of src/main.rs lines 249-273 (and the identical
`None` branch, lines 275-300): `Content-Length` is the file length, the
response keeps its current status, and for `GET` the whole file is
streamed from its current position (the start; nothing has been read). -/
def serveWhole (response : HttpResponse) (file : List Nat) (method : String) :
    HandlerOk :=
  ⟨some (writtenResp { response with
      headers := insertH response.headers "content-length" (toString file.length) },
    if method ≠ "GET" then [] else file), true⟩

/-- Partial-content reply of src/main.rs lines 206-245: status 206,
`Accept-Ranges: bytes`, `Content-Length: end - start` (wrapping u64
subtraction) and `Content-Range: bytes start-end/file_length`; for `GET`
the file is seeked to `start` and `end - start` bytes are streamed. -/
def serve206 (response : HttpResponse) (file : List Nat) (method : String)
    (s e : Nat) : HandlerOk :=
  ⟨some (writtenResp { response with
      status := 206,
      headers := insertH (insertH (insertH response.headers
        "accept-ranges" "bytes")
        "content-length" (toString (u64Sub e s)))
        "content-range" ("bytes " ++ toString s ++ "-" ++ toString e ++ "/" ++ toString file.length) },
    if method ≠ "GET" then [] else (file.drop s).take (u64Sub e s)), true⟩

/-- The base response of the resource branch: the default response with
the CORS headers added (src/main.rs lines 151-173). -/
def respResource : HttpResponse :=
  { respDefault with headers := corsHeaders respDefault.headers }

/-- Resource branch of `handler` (src/main.rs lines 154-301), after the
file has been opened: CORS headers are added; with exactly one parsed
range unit that resolves, partial content is served, otherwise the whole
resource is. -/
def handleResource (method : String)
    (parsedRanges : Option (List SyntacticallyCorrectRange))
    (file : List Nat) : HandlerOk :=
  match parsedRanges with
  | some [r] =>
    match resolveRange r file.length with
    | some (s, e) => serve206 respResource file method s e
    | none => serveWhole respResource file method
  | some [] => serveWhole respResource file method
  | some (_ :: _ :: _) => serveWhole respResource file method
  | none => serveWhole respResource file method

/-- Routing body of `handler` (src/main.rs lines 149-332) for a decoded
request: the resource path serves the (possibly range-limited) file, with
a failed open surfaced as an error; `/favicon.ico` answers 200 with
`image/icon` and length 0; every other path answers 200 with the package
name as `text/plain` body. -/
def handlerCore (req : Request) (file? : Option (List Nat)) :
    Except ProcErr HandlerOk :=
  let path := uriPath req.target
  if "/resource/mikufans".toList.isPrefixOf path then
    match file? with
    | none => .error .fileOpen
    | some file =>
      .ok (handleResource req.method
        ((lookupH req.headers "range").bind (fun v => parseRangeHeaderSpec v.toList))
        file)
  else if path = "/favicon.ico".toList then
    .ok ⟨some (writtenResp { respDefault with
      headers := insertH (insertH respDefault.headers
        "content-type" "image/icon") "content-length" "0" }, []), true⟩
  else
    .ok ⟨some (writtenResp { respDefault with
      headers := insertH respDefault.headers "content-type" "text/plain",
      body := some pkgNameBytes }, []), true⟩

/-- One full `handler` call (src/main.rs lines 138-146 and on): decode the
request; a decode error propagates; "no request" returns
`Ok(can_continue = true)` with nothing written; otherwise route. -/
def processOnce (lines : List (List Char)) (file? : Option (List Nat)) :
    Except ProcErr HandlerOk :=
  match parseRequest lines with
  | .error e => .error (.proto e)
  | .ok none => .ok ⟨none, true⟩
  | .ok (some req) => handlerCore req file?

/-- Session-loop states reached after one processing step. -/
inductive SessionNext
  | waitingForData
  | closed
deriving DecidableEq, Repr

/-- The bare 400 reply, `Response::status(StatusCode::BAD_REQUEST)`. -/
def resp400 : HttpResponse := respStatus 400

/-- One iteration of the keep-alive session loop (src/main.rs lines
89-112): `Ok(true)` returns to waiting, `Ok(false)` closes; any error is
answered with a bare 400, after which the loop continues if that write
succeeded and closes if it failed.  The emitted list holds the responses
written (attempted) this iteration with their streamed bytes. -/
def sessionOnce (lines : List (List Char)) (file? : Option (List Nat))
    (write400Ok : Bool) : SessionNext × List (HttpResponse × List Nat) :=
  match processOnce lines file? with
  | .ok h =>
    (if h.canContinue then .waitingForData else .closed, h.response.toList)
  | .error _ =>
    (if write400Ok then .waitingForData else .closed, [(writtenResp resp400, [])])

/-- Peek decision of the waiting state (src/main.rs lines 63-72): the loop
proceeds to processing only when the peek succeeded with at least one
byte; a peek error or zero bytes (peer closed) breaks to Closed. -/
def peekProceeds (peek : Option Nat) : Bool :=
  match peek with
  | some n => decide (n > 0)
  | none => false

/-! ## Idle tracking, from src/utils.rs -/

/-- The idle tracker's state, `idle_since`: `none` while a request is
being processed (Active), `some t` when idle since time `t`.  Time is an
abstract monotone `Nat` clock in seconds. -/
abbrev IdleState := Option Nat

/-- Embedding of `IdleHandler::new`: idle since creation time. -/
def idleNew (now : Nat) : IdleState := some now

/-- Embedding of `IdleHandler::idle_guard`: acquiring the guard clears
`idle_since`. -/
def guardAcquire (_ : IdleState) : IdleState := none

/-- Embedding of `IdleGuard::drop`: releasing the guard stamps
`idle_since` with the current time. -/
def guardRelease (now : Nat) (_ : IdleState) : IdleState := some now

/-- The default of `wait_max_idle`: `max_dur.unwrap_or(15 seconds)`. -/
def waitMaxIdleDur (maxDur : Option Nat) : Nat := maxDur.getD 15

/-- The expiry test polled by `wait_max_idle` (src/utils.rs lines 30-43):
expired exactly when idle and the elapsed idle time strictly exceeds the
maximum. -/
def isExpired (s : IdleState) (now maxDur : Nat) : Bool :=
  match s with
  | none => false
  | some t => decide (now - t > maxDur)

/-! ## Statement helpers -/

/-- Observations characterising the whole-resource reply: status 200 (in
particular not 416), `Content-Length` equal to the full file length, the
loop continuing, and the whole file streamed for `GET` (nothing for other
methods). -/
def servesWholeOutcome (hr : HandlerOk) (file : List Nat) (method : String) : Prop :=
  hr.status? = some 200 ∧
  hr.header? "content-length" = some (toString file.length) ∧
  hr.canContinue = true ∧
  hr.streamed = (if method ≠ "GET" then [] else file) ∧
  hr.status? ≠ some 416

/-- A well-formed wire request: request line from a method token and a
target, zero or more header lines, and the terminating blank line. -/
def mkWellFormedInput (m t : String) (hs : List (String × String)) :
    List (List Char) :=
  (m.toList ++ ' ' :: (t.toList ++ ' ' :: "HTTP/1.1".toList))
    :: (hs.map (fun p => p.1.toList ++ ':' :: p.2.toList) ++ [[]])

/-- A header pair the codec accepts verbatim: non-empty lower-case token
name, and a value of valid characters that trimming leaves unchanged. -/
def GoodHeader (p : String × String) : Prop :=
  p.1.toList ≠ [] ∧
  p.1.toList.all (fun c => isTokenChar c && !(65 ≤ c.toNat && c.toNat ≤ 90)) = true ∧
  trimChars p.2.toList = p.2.toList ∧
  p.2.toList.all isHeaderValueChar = true

/-- A string that is a valid HTTP method token. -/
def validMethodTok (m : String) : Prop :=
  m.toList ≠ [] ∧ m.toList.all isTokenChar = true

/-- A string of valid URI-reference characters. -/
def validUriTok (t : String) : Prop :=
  t.toList.all isUriChar = true

instance : DecidablePred GoodHeader := fun p => by
  unfold GoodHeader; infer_instance

instance : DecidablePred validMethodTok := fun m => by
  unfold validMethodTok; infer_instance

instance : DecidablePred validUriTok := fun t => by
  unfold validUriTok; infer_instance

/-! ## Helper lemmas -/

theorem splitOnChar_ne_nil (c : Char) (l : List Char) : splitOnChar c l ≠ [] := by
  cases l with
  | nil => simp [splitOnChar]
  | cons x xs =>
    simp only [splitOnChar]
    split <;> simp

theorem splitOnChar_of_not_mem {c : Char} {l : List Char} (h : c ∉ l) :
    splitOnChar c l = [l] := by
  induction l with
  | nil => rfl
  | cons x xs ih =>
    simp only [List.mem_cons, not_or] at h
    have hx : ¬x = c := fun he => h.1 he.symm
    simp [splitOnChar, ih h.2, hx]

theorem splitOnChar_append {c : Char} {m : List Char} (rest : List Char)
    (h : c ∉ m) : splitOnChar c (m ++ c :: rest) = m :: splitOnChar c rest := by
  induction m with
  | nil => simp [splitOnChar]
  | cons x xs ih =>
    simp only [List.mem_cons, not_or] at h
    have hx : ¬x = c := fun he => h.1 he.symm
    simp [splitOnChar, ih h.2, hx, splitOnChar_ne_nil]

theorem splitOnceChar_append {c : Char} {n : List Char} (v : List Char)
    (h : c ∉ n) : splitOnceChar c (n ++ c :: v) = some (n, v) := by
  induction n with
  | nil => simp [splitOnceChar]
  | cons x xs ih =>
    simp only [List.mem_cons, not_or] at h
    have hx : ¬x = c := fun he => h.1 he.symm
    simp [splitOnceChar, ih h.2, hx]

theorem find?_map_replace (t : Headers) (k k' v : String) (hne : k ≠ k') :
    (t.map (fun q => if q.1 = k' then (k', v) else q)).find? (fun p => p.1 = k)
      = t.find? (fun p => p.1 = k) := by
  induction t with
  | nil => rfl
  | cons q t ih =>
    by_cases hq : q.1 = k'
    · have h1 : ¬((k', v).1 = k) := fun he => hne he.symm
      have h2 : ¬(q.1 = k) := by rw [hq]; exact fun he => hne he.symm
      simp only [List.map_cons, if_pos hq]
      rw [List.find?_cons_of_neg _ (by simpa using h1),
        List.find?_cons_of_neg _ (by simpa using h2), ih]
    · simp only [List.map_cons, if_neg hq]
      by_cases hqk : q.1 = k
      · rw [List.find?_cons_of_pos _ (by simpa using hqk),
          List.find?_cons_of_pos _ (by simpa using hqk)]
      · rw [List.find?_cons_of_neg _ (by simpa using hqk),
          List.find?_cons_of_neg _ (by simpa using hqk), ih]

theorem find?_insertH_self (h : Headers) (k v : String) :
    (insertH h k v).find? (fun p => p.1 = k) = some (k, v) := by
  induction h with
  | nil => simp [insertH, List.find?]
  | cons p t ih =>
    unfold insertH at ih ⊢
    by_cases hp : p.1 = k
    · have hany : ((p :: t).any (fun q => decide (q.1 = k))) = true := by
        simp [List.any_cons, hp]
      rw [if_pos hany, List.map_cons, if_pos hp,
        List.find?_cons_of_pos _ (by simp)]
    · by_cases ht : (t.any (fun q => decide (q.1 = k))) = true
      · have hany : ((p :: t).any (fun q => decide (q.1 = k))) = true := by
          simp [List.any_cons, ht]
        rw [if_pos hany, List.map_cons, if_neg hp,
          List.find?_cons_of_neg _ (by simpa using hp)]
        rw [if_pos ht] at ih
        exact ih
      · have ht' : (t.any (fun q => decide (q.1 = k))) = false := by
          cases hx : t.any (fun q => decide (q.1 = k)) with
          | true => exact absurd hx ht
          | false => rfl
        have hany : ((p :: t).any (fun q => decide (q.1 = k))) = false := by
          simp [List.any_cons, decide_eq_false hp, ht']
        rw [if_neg (by simp [hany]), List.cons_append,
          List.find?_cons_of_neg _ (by simpa using hp)]
        rw [if_neg (by simp [Bool.not_eq_true] at ht ⊢; exact ht)] at ih
        exact ih

theorem lookupH_insertH_self (h : Headers) (k v : String) :
    lookupH (insertH h k v) k = some v := by
  simp [lookupH, find?_insertH_self]

theorem lookupH_insertH_ne (h : Headers) (k k' v : String) (hne : k ≠ k') :
    lookupH (insertH h k' v) k = lookupH h k := by
  unfold lookupH insertH
  by_cases ha : (h.any (fun q => decide (q.1 = k'))) = true
  · rw [if_pos ha, find?_map_replace h k k' v hne]
  · rw [if_neg ha, List.find?_append]
    have h1 : (([(k', v)] : Headers).find? (fun p => p.1 = k)) = none := by
      rw [List.find?_cons_of_neg _ (by simp; exact fun he => hne he.symm)]
      rfl
    rw [h1]
    cases h.find? (fun p => p.1 = k) <;> rfl

theorem u64Sub_eq_sub {a b : Nat} (h1 : b ≤ a) (h2 : a < U64) :
    u64Sub a b = a - b := by
  have hb : b < U64 := lt_of_le_of_lt h1 h2
  unfold u64Sub
  rw [Nat.mod_eq_of_lt h2, Nat.mod_eq_of_lt hb]
  have he : a + (U64 - b) = U64 + (a - b) := by omega
  rw [he, Nat.add_mod_left, Nat.mod_eq_of_lt (by omega)]

theorem writtenResp_of_body_none (r : HttpResponse) (h : r.body = none) :
    writtenResp r = r := by
  unfold writtenResp
  rw [h]

theorem serve206_spec (response : HttpResponse) (file : List Nat)
    (method : String) (s e : Nat) (hbody : response.body = none) :
    (serve206 response file method s e).status? = some 206 ∧
    (serve206 response file method s e).header? "content-range"
      = some ("bytes " ++ toString s ++ "-" ++ toString e ++ "/" ++ toString file.length) ∧
    (serve206 response file method s e).header? "content-length"
      = some (toString (u64Sub e s)) ∧
    (serve206 response file method s e).streamed
      = (if method ≠ "GET" then [] else (file.drop s).take (u64Sub e s)) ∧
    (serve206 response file method s e).canContinue = true := by
  have hw := writtenResp_of_body_none ({ response with
      status := 206,
      headers := insertH (insertH (insertH response.headers
        "accept-ranges" "bytes")
        "content-length" (toString (u64Sub e s)))
        "content-range" ("bytes " ++ toString s ++ "-" ++ toString e ++ "/" ++ toString file.length) })
    (by simpa using hbody)
  refine ⟨?_, ?_, ?_, ?_, rfl⟩
  · simp [serve206, HandlerOk.status?, hw]
  · simp [serve206, HandlerOk.header?, hw, lookupH_insertH_self]
  · simp only [serve206, HandlerOk.header?, hw, Option.bind_some, Option.some_bind]
    rw [lookupH_insertH_ne _ _ _ _ (by decide), lookupH_insertH_self]
  · simp [serve206, HandlerOk.streamed, hw]

theorem serveWhole_spec (response : HttpResponse) (file : List Nat)
    (method : String) (hbody : response.body = none) :
    (serveWhole response file method).status? = some response.status ∧
    (serveWhole response file method).header? "content-length"
      = some (toString file.length) ∧
    (serveWhole response file method).streamed
      = (if method ≠ "GET" then [] else file) ∧
    (serveWhole response file method).canContinue = true := by
  have hw := writtenResp_of_body_none ({ response with
      headers := insertH response.headers "content-length" (toString file.length) })
     (by simpa using hbody)
  refine ⟨?_, ?_, ?_, rfl⟩
  · simp [serveWhole, HandlerOk.status?, hw]
  · simp [serveWhole, HandlerOk.header?, hw, lookupH_insertH_self]
  · simp [serveWhole, HandlerOk.streamed, hw]

theorem resolveRange_index_index {s e total : Nat} (hs : s ≤ total)
    (he : e ≤ total) : resolveRange ⟨.index s, .index e⟩ total = some (s, e) := by
  simp [resolveRange, optTakeIf, optZip, hs, he]

theorem resolveRange_fromLast_le {n total : Nat} (hn : n ≤ total) :
    resolveRange ⟨.fromLast n, .lastByte⟩ total = some (total - n, total) := by
  simp [resolveRange, checkedSub, optTakeIf, optZip, hn, Nat.sub_le]

theorem resolveRange_fromLast_gt {n total : Nat} (hn : total < n) :
    resolveRange ⟨.fromLast n, .lastByte⟩ total = none := by
  simp [resolveRange, checkedSub, optTakeIf, optZip, Nat.not_le.mpr hn]

theorem resolveRange_start_gt {s total : Nat} (ep : EndPosition) (hn : total < s) :
    resolveRange ⟨.index s, ep⟩ total = none := by
  cases ep <;> simp [resolveRange, optTakeIf, optZip, Nat.not_le.mpr hn]

theorem resolveRange_end_gt {e total : Nat} (sp : StartPosition) (hn : total < e) :
    resolveRange ⟨sp, .index e⟩ total = none := by
  cases hsp : (optTakeIf (fun idx => idx ≤ total)
      (match sp with
        | .index idx => some idx
        | .fromLast idx => checkedSub total idx)) with
  | none => cases sp <;> simp_all [resolveRange, optZip, Nat.not_le.mpr hn]
  | some a => cases sp <;> simp_all [resolveRange, optZip, Nat.not_le.mpr hn]

theorem handleResource_eq_of_resolve {r : SyntacticallyCorrectRange}
    {total : Nat} {file : List Nat} {s e : Nat} (method : String)
    (hlen : file.length = total) (hres : resolveRange r total = some (s, e)) :
    handleResource method (some [r]) file = serve206 respResource file method s e := by
  simp only [handleResource]
  rw [hlen, hres]

theorem handleResource_eq_whole_of_none {r : SyntacticallyCorrectRange}
    {total : Nat} {file : List Nat} (method : String)
    (hlen : file.length = total) (hres : resolveRange r total = none) :
    handleResource method (some [r]) file = serveWhole respResource file method := by
  simp only [handleResource]
  rw [hlen, hres]

theorem writtenResp_status (r : HttpResponse) : (writtenResp r).status = r.status := by
  unfold writtenResp
  cases r.body <;> rfl

theorem handleResource_status (method : String)
    (pr : Option (List SyntacticallyCorrectRange)) (file : List Nat) :
    (handleResource method pr file).status? = some 200 ∨
    (handleResource method pr file).status? = some 206 := by
  have hwhole := (serveWhole_spec respResource file method rfl).1
  match pr with
  | none => exact Or.inl hwhole
  | some [] => exact Or.inl hwhole
  | some (a :: b :: t) => exact Or.inl hwhole
  | some [r] =>
    cases hres : resolveRange r file.length with
    | none =>
      rw [handleResource_eq_whole_of_none method rfl hres]
      exact Or.inl hwhole
    | some p =>
      obtain ⟨s0, e0⟩ := p
      rw [handleResource_eq_of_resolve method rfl hres]
      exact Or.inr (serve206_spec respResource file method s0 e0 rfl).1

theorem status?_cases {h : HandlerOk} {st : Nat} (hs : h.status? = some st) :
    ∀ p ∈ h.response.toList, p.1.status = st := by
  intro p hp
  cases hresp : h.response with
  | none => rw [hresp] at hp; simp at hp
  | some q =>
    rw [hresp] at hp
    simp only [Option.toList_some, List.mem_singleton] at hp
    subst hp
    unfold HandlerOk.status? at hs
    rw [hresp] at hs
    simpa using hs

theorem handlerCore_ok_status {req : Request} {f : Option (List Nat)}
    {h : HandlerOk} (hcore : handlerCore req f = .ok h) :
    ∀ p ∈ h.response.toList, p.1.status = 200 ∨ p.1.status = 206 := by
  by_cases hp1 : ("/resource/mikufans".toList.isPrefixOf (uriPath req.target)) = true
  · cases f with
    | none =>
      simp only [handlerCore] at hcore
      rw [if_pos hp1] at hcore
      cases hcore
    | some file =>
      simp only [handlerCore] at hcore
      rw [if_pos hp1] at hcore
      have hh : handleResource req.method
          ((lookupH req.headers "range").bind (fun v => parseRangeHeaderSpec v.toList))
          file = h := Except.ok.inj hcore
      intro p hp
      rw [← hh] at hp
      rcases handleResource_status req.method
          ((lookupH req.headers "range").bind (fun v => parseRangeHeaderSpec v.toList))
          file with hst | hst
      · exact Or.inl (status?_cases hst p hp)
      · exact Or.inr (status?_cases hst p hp)
  · by_cases hp2 : uriPath req.target = "/favicon.ico".toList
    · simp only [handlerCore] at hcore
      rw [if_neg hp1, if_pos hp2] at hcore
      have hh := Except.ok.inj hcore
      intro p hp
      rw [← hh] at hp
      simp only [Option.toList_some, List.mem_singleton] at hp
      subst hp
      exact Or.inl (by rw [writtenResp_status]; rfl)
    · simp only [handlerCore] at hcore
      rw [if_neg hp1, if_neg hp2] at hcore
      have hh := Except.ok.inj hcore
      intro p hp
      rw [← hh] at hp
      simp only [Option.toList_some, List.mem_singleton] at hp
      subst hp
      exact Or.inl (by rw [writtenResp_status]; rfl)

theorem processOnce_ok_status {lines : List (List Char)} {f : Option (List Nat)}
    {h : HandlerOk} (hp : processOnce lines f = .ok h) :
    ∀ p ∈ h.response.toList, p.1.status = 200 ∨ p.1.status = 206 := by
  unfold processOnce at hp
  split at hp
  · exact absurd hp (by simp)
  · have hh : (⟨none, true⟩ : HandlerOk) = h := by simpa using hp
    rw [← hh]
    intro p hmem
    simp at hmem
  · exact handlerCore_ok_status hp

theorem not_mem_of_all_false {p : Char → Bool} {m : List Char} {c : Char}
    (h : m.all p = true) (hc : p c = false) : c ∉ m := by
  intro hm
  have := List.all_eq_true.mp h c hm
  rw [hc] at this
  exact Bool.false_ne_true this

theorem map_charToLower_id {m : List Char}
    (h : m.all (fun c => isTokenChar c && !(65 ≤ c.toNat && c.toNat ≤ 90)) = true) :
    m.map charToLower = m := by
  induction m with
  | nil => rfl
  | cons c t ih =>
    rw [List.all_cons, Bool.and_eq_true] at h
    have hup : (65 ≤ c.toNat && c.toNat ≤ 90) = false := by
      have := (Bool.and_eq_true _ _ |>.mp h.1).2
      rw [Bool.not_eq_true'] at this
      exact this
    rw [List.map_cons, ih h.2]
    unfold charToLower
    rw [hup]
    rfl

theorem parseHeaders_good (hs : List (String × String))
    (acc : List (String × String)) (h : ∀ p ∈ hs, GoodHeader p) :
    parseHeaders (hs.map (fun p => p.1.toList ++ ':' :: p.2.toList) ++ [[]]) acc
      = .ok (hs.foldl (fun a p => insertH a p.1 p.2) acc) := by
  induction hs generalizing acc with
  | nil => rfl
  | cons p t ih =>
    obtain ⟨hne, hlow, htrim, hval⟩ := h p (List.mem_cons_self p t)
    have htok : p.1.toList.all isTokenChar = true := by
      rw [List.all_eq_true] at hlow ⊢
      exact fun c hc => (Bool.and_eq_true _ _ |>.mp (hlow c hc)).1
    have hcolon : ':' ∉ p.1.toList := not_mem_of_all_false htok (by decide)
    have hlmain : (p.1.toList ++ ':' :: p.2.toList) ≠ [] := by
      cases hm : p.1.toList with
      | nil => exact absurd hm hne
      | cons a b => simp [hm]
    rw [List.map_cons, List.cons_append]
    unfold parseHeaders
    rw [if_neg hlmain, splitOnceChar_append _ hcolon]
    have hname : headerNameFromBytes p.1.toList = some p.1 := by
      unfold headerNameFromBytes
      rw [if_pos ⟨hne, htok⟩, map_charToLower_id hlow]
      rfl
    have hvalue : headerValueFromStr (trimChars p.2.toList) = some p.2 := by
      unfold headerValueFromStr
      rw [htrim, if_pos hval]
      rfl
    simp only [hname, hvalue]
    rw [ih _ (fun q hq => h q (List.mem_cons_of_mem p hq))]
    rfl

theorem parseRequest_none_iff (lines : List (List Char)) :
    parseRequest lines = .ok none ↔ lines = [] := by
  constructor
  · intro h
    cases lines with
    | nil => rfl
    | cons l rest =>
      exfalso
      simp only [parseRequest] at h
      iterate 10 (all_goals (try split at h))
      all_goals simp_all
  · intro h
    rw [h]
    rfl

theorem parseRequest_wellformed (m t : String) (hs : List (String × String))
    (hm : validMethodTok m) (ht : validUriTok t) (hh : ∀ p ∈ hs, GoodHeader p) :
    parseRequest (mkWellFormedInput m t hs)
      = .ok (some ⟨m, t, hs.foldl (fun a p => insertH a p.1 p.2) []⟩) := by
  obtain ⟨hmne, hmtok⟩ := hm
  have hmsp : ' ' ∉ m.toList := not_mem_of_all_false hmtok (by decide)
  have htsp : ' ' ∉ t.toList := not_mem_of_all_false ht (by decide)
  have hsplit : splitOnChar ' ' (m.toList ++ ' ' :: (t.toList ++ ' ' :: "HTTP/1.1".toList))
      = m.toList :: t.toList :: ["HTTP/1.1".toList] := by
    rw [splitOnChar_append _ hmsp, splitOnChar_append _ htsp,
      splitOnChar_of_not_mem (by decide)]
  have hmeth : methodFromBytes m.toList = some m := by
    unfold methodFromBytes
    rw [if_pos ⟨hmne, hmtok⟩]
    rfl
  have ht' : t.toList.all isUriChar = true := ht
  have huri : uriParseRef t.toList = some t := by
    unfold uriParseRef
    rw [if_pos ht']
    rfl
  simp only [mkWellFormedInput, parseRequest]
  rw [hsplit]
  simp only [hmeth, huri, if_pos rfl]
  rw [parseHeaders_good hs [] hh]
  simp

theorem parseRequest_short_line (line : List Char) (rest : List (List Char))
    (h : (splitOnChar ' ' line).length < 3) :
    ∃ e, parseRequest (line :: rest) = .error e := by
  rcases hsp : splitOnChar ' ' line with _ | ⟨t1, _ | ⟨t2, _ | ⟨t3, ts⟩⟩⟩
  · exact absurd hsp (splitOnChar_ne_nil ' ' line)
  · cases hmb : methodFromBytes t1 with
    | none =>
      exact ⟨.requestLineMethod, by simp only [parseRequest]; rw [hsp]; simp [hmb]⟩
    | some m =>
      exact ⟨.requestLineUri, by simp only [parseRequest]; rw [hsp]; simp [hmb]⟩
  · cases hmb : methodFromBytes t1 with
    | none =>
      exact ⟨.requestLineMethod, by simp only [parseRequest]; rw [hsp]; simp [hmb]⟩
    | some m =>
      cases hub : uriParseRef t2 with
      | none =>
        exact ⟨.requestLineUri, by simp only [parseRequest]; rw [hsp]; simp [hmb, hub]⟩
      | some u =>
        exact ⟨.requestLine, by simp only [parseRequest]; rw [hsp]; simp [hmb, hub]⟩
  · rw [hsp] at h
    simp at h
    omega

/-! ## Claim theorems -/

set_option maxRecDepth 100000 in
/-- C1: against a 1000-byte resource, a GET with header
`Range: bytes=100-199` is answered 206 with
`Content-Range: bytes 100-199/1000` — but the code sets `Content-Length`
to `end - start = 99` and streams only the 99 bytes at offsets 100
through 198, one short of the 100 bytes the claim (and the Content-Range
header itself) promises.  This theorem evaluates the embedded handler at
the claim's input and exhibits the off-by-one. -/
theorem range_100_199_served_one_byte_short :
    (processOnce ["GET /resource/mikufans/x HTTP/1.1".toList,
        "Range: bytes=100-199".toList, []] (some (List.range 1000))).toOption.map
      (fun h => (h.status?, h.header? "content-range", h.header? "content-length",
                 h.streamed.length, h.streamed))
    = some (some 206, some "bytes 100-199/1000", some "99", 99, List.range' 100 99) := by
  decide

set_option maxRecDepth 100000 in
/-- C3: the resolver checks `start ≤ total` and `end ≤ total` but never
`start ≤ end`; the syntactically correct range `Index 199, Index 100`
against a 1000-byte resource is accepted and served as 206, and the
`Content-Length` computation `end - start` underflows u64, wrapping to
`2^64 - 99` (a debug build aborts here), while only 801 bytes are
streamed. -/
theorem reversed_range_accepted_underflow :
    (handleResource "GET" (some [⟨.index 199, .index 100⟩]) (List.range 1000)).status?
        = some 206 ∧
    resolveRange ⟨.index 199, .index 100⟩ 1000 = some (199, 100) ∧
    u64Sub 100 199 = 2 ^ 64 - 99 ∧
    (handleResource "GET" (some [⟨.index 199, .index 100⟩]) (List.range 1000)).header?
        "content-length" = some "18446744073709551517" ∧
    (handleResource "GET" (some [⟨.index 199, .index 100⟩]) (List.range 1000)).streamed.length
        = 801 ∧
    199 > 100 := by
  refine ⟨by decide, by decide, by decide, by decide, by decide, by decide⟩

/-- C5 counterexample: when decode reports "no request" the handler
returns `Ok(true)` and the session goes back to WaitingForData — it does
not transition to Closed as the claim states. -/
theorem no_request_keeps_waiting_counterexample :
    (sessionOnce [] (some []) true).1 = SessionNext.waitingForData ∧
    SessionNext.waitingForData ≠ SessionNext.closed ∧
    processOnce [] (some []) = .ok ⟨none, true⟩ := by
  decide

/-- C5 amended: on "no request" the handler returns "can continue" with
nothing written and the session returns to WaitingForData; the closed
peer is then caught by the WaitingForData peek, which refuses to proceed
on EOF (zero bytes) or a peek error, breaking the loop to Closed. -/
theorem no_request_returns_to_waiting :
    (∀ (f : Option (List Nat)) (w : Bool),
        sessionOnce [] f w = (SessionNext.waitingForData, [])) ∧
    (∀ f : Option (List Nat), processOnce [] f = .ok ⟨none, true⟩) ∧
    peekProceeds (some 0) = false ∧ peekProceeds none = false ∧
    (∀ n : Nat, 0 < n → peekProceeds (some n) = true) := by
  refine ⟨fun f w => rfl, fun f => rfl, rfl, rfl, fun n hn => by simp [peekProceeds, hn]⟩

/-- C5 amended, witness: the behaviour at concrete inputs. -/
theorem no_request_returns_to_waiting_witness :
    sessionOnce [] (some [0]) true = (SessionNext.waitingForData, []) ∧
    peekProceeds (some 1) = true :=
  ⟨no_request_returns_to_waiting.1 (some [0]) true,
   no_request_returns_to_waiting.2.2.2.2 1 (by decide)⟩

/-- C6: any decode parse error makes the session write the bare 400
response (status 400, no body); the loop returns to waiting when that
write succeeds and closes when it fails. -/
theorem decode_error_bare_400 (lines : List (List Char)) (f : Option (List Nat))
    (w : Bool) (e : ProtoError) (h : parseRequest lines = .error e) :
    sessionOnce lines f w =
      (if w then SessionNext.waitingForData else SessionNext.closed,
       [(writtenResp resp400, [])]) ∧
    resp400.status = 400 ∧ resp400.body = none := by
  refine ⟨?_, rfl, rfl⟩
  simp [sessionOnce, processOnce, h]

/-- C6 witness: a one-token request line produces a decode error and the
session answers 400 and keeps waiting. -/
theorem decode_error_bare_400_witness :
    (sessionOnce ["GET".toList] none true =
      (if true then SessionNext.waitingForData else SessionNext.closed,
       [(writtenResp resp400, [])]) ∧
    resp400.status = 400 ∧ resp400.body = none) ∧
    (sessionOnce ["GET".toList] none false =
      (if false then SessionNext.waitingForData else SessionNext.closed,
       [(writtenResp resp400, [])]) ∧
    resp400.status = 400 ∧ resp400.body = none) :=
  ⟨decode_error_bare_400 ["GET".toList] none true .requestLineUri (by decide),
   decode_error_bare_400 ["GET".toList] none false .requestLineUri (by decide)⟩

/-- C7: the idle tracker is created idle with the creation timestamp;
acquiring the guard makes the expiry query false; releasing it stamps the
current time; the query is true exactly when idle and the elapsed time
strictly exceeds the maximum (15 seconds by default); and for a fixed
idle state expiry is monotone in time, so once expired it stays expired
until the next acquisition. -/
theorem idle_tracker_correct :
    (∀ now : Nat, idleNew now = some now) ∧
    (∀ (s : IdleState) (now maxDur : Nat), isExpired (guardAcquire s) now maxDur = false) ∧
    (∀ (s : IdleState) (now : Nat), guardRelease now s = some now) ∧
    (∀ t now maxDur : Nat, isExpired (some t) now maxDur = true ↔ now - t > maxDur) ∧
    waitMaxIdleDur none = 15 ∧
    (∀ (s : IdleState) (n1 n2 maxDur : Nat), n1 ≤ n2 →
      isExpired s n1 maxDur = true → isExpired s n2 maxDur = true) := by
  refine ⟨fun now => rfl, fun s now maxDur => rfl, fun s now => rfl,
    fun t now maxDur => by simp [isExpired], rfl, fun s n1 n2 maxDur h12 h1 => ?_⟩
  cases s with
  | none => simp [isExpired] at h1
  | some t =>
    simp only [isExpired, decide_eq_true_eq] at h1 ⊢
    omega

/-- C7 witness: with the default 15-second maximum, an idle state stamped
at time 0 is expired at time 16 and still expired at time 100. -/
theorem idle_tracker_correct_witness :
    isExpired (idleNew 0) 100 (waitMaxIdleDur none) = true :=
  idle_tracker_correct.2.2.2.2.2 (idleNew 0) 16 100 (waitMaxIdleDur none)
    (by decide) (by decide)

/-- C2: for a resource of `file.length` bytes and a single parsed range
`bytes=START-END` with `START ≤ END ≤ total`, the handler answers 206
with `Content-Range: bytes START-END/total` and `Content-Length:
END - START`, and for `GET` streams exactly `END - START` bytes starting
at offset `START`; a suffix range `bytes=-N` resolves to
`(total - N, total)` when `N ≤ total` and is invalid (no resolution) when
`N > total`. -/
theorem single_range_206_response
    (file : List Nat) (method : String) (START END N : Nat)
    (hword : file.length < U64) (hse : START ≤ END) (het : END ≤ file.length) :
    (handleResource method (some [⟨.index START, .index END⟩]) file).status?
      = some 206 ∧
    (handleResource method (some [⟨.index START, .index END⟩]) file).header?
        "content-range"
      = some ("bytes " ++ toString START ++ "-" ++ toString END ++ "/"
          ++ toString file.length) ∧
    (handleResource method (some [⟨.index START, .index END⟩]) file).header?
        "content-length"
      = some (toString (END - START)) ∧
    (handleResource "GET" (some [⟨.index START, .index END⟩]) file).streamed.length
      = END - START ∧
    (∀ i, i < END - START →
      (handleResource "GET" (some [⟨.index START, .index END⟩]) file).streamed[i]?
        = file[START + i]?) ∧
    (N ≤ file.length →
      resolveRange ⟨.fromLast N, .lastByte⟩ file.length
        = some (file.length - N, file.length)) ∧
    (file.length < N →
      resolveRange ⟨.fromLast N, .lastByte⟩ file.length = none) := by
  have hs : START ≤ file.length := le_trans hse het
  have hEU : END < U64 := lt_of_le_of_lt het hword
  have hsub : u64Sub END START = END - START := u64Sub_eq_sub hse hEU
  have hres : resolveRange ⟨.index START, .index END⟩ file.length
      = some (START, END) := resolveRange_index_index hs het
  have hH := handleResource_eq_of_resolve method rfl hres
  have hHg := handleResource_eq_of_resolve "GET" rfl hres
  have h206 := serve206_spec respResource file method START END rfl
  have h206g := serve206_spec respResource file "GET" START END rfl
  have hstr : (handleResource "GET" (some [⟨.index START, .index END⟩]) file).streamed
      = (file.drop START).take (END - START) := by
    rw [hHg, h206g.2.2.2.1, hsub]
    simp
  refine ⟨?_, ?_, ?_, ?_, ?_, fun hN => resolveRange_fromLast_le hN,
    fun hN => resolveRange_fromLast_gt hN⟩
  · rw [hH]; exact h206.1
  · rw [hH]; exact h206.2.1
  · rw [hH, h206.2.2.1, hsub]
  · rw [hstr]
    simp only [List.length_take, List.length_drop]
    omega
  · intro i hi
    rw [hstr, List.getElem?_take, if_pos hi, List.getElem?_drop]

/-- C2 witness: the theorem at a four-byte resource with range 1-3. -/
theorem single_range_206_response_witness :
    (handleResource "HEAD" (some [⟨.index 1, .index 3⟩]) [10, 11, 12, 13]).status?
      = some 206 ∧
    (handleResource "HEAD" (some [⟨.index 1, .index 3⟩]) [10, 11, 12, 13]).header?
        "content-range"
      = some ("bytes " ++ toString 1 ++ "-" ++ toString 3 ++ "/"
          ++ toString (List.length [10, 11, 12, 13])) ∧
    (handleResource "HEAD" (some [⟨.index 1, .index 3⟩]) [10, 11, 12, 13]).header?
        "content-length"
      = some (toString (3 - 1)) ∧
    (handleResource "GET" (some [⟨.index 1, .index 3⟩]) [10, 11, 12, 13]).streamed.length
      = 3 - 1 ∧
    (∀ i, i < 3 - 1 →
      (handleResource "GET" (some [⟨.index 1, .index 3⟩]) [10, 11, 12, 13]).streamed[i]?
        = [10, 11, 12, 13][1 + i]?) ∧
    (2 ≤ List.length [10, 11, 12, 13] →
      resolveRange ⟨.fromLast 2, .lastByte⟩ (List.length [10, 11, 12, 13])
        = some (List.length [10, 11, 12, 13] - 2, List.length [10, 11, 12, 13])) ∧
    (List.length [10, 11, 12, 13] < 2 →
      resolveRange ⟨.fromLast 2, .lastByte⟩ (List.length [10, 11, 12, 13]) = none) :=
  single_range_206_response [10, 11, 12, 13] "HEAD" 1 3 2
    (by decide) (by decide) (by decide)

/-- C4: an absent or unparseable Range header, a header with more than one
range unit, and a single range that fails to resolve (in particular one
whose start or end index exceeds the total) are all answered with status
200 and the whole resource — never 416 and never an error. -/
theorem invalid_range_serves_whole (method : String) (file : List Nat) :
    servesWholeOutcome (handleResource method none file) file method ∧
    (∀ ranges : List SyntacticallyCorrectRange, ranges.length ≠ 1 →
      servesWholeOutcome (handleResource method (some ranges) file) file method) ∧
    (∀ r : SyntacticallyCorrectRange, resolveRange r file.length = none →
      servesWholeOutcome (handleResource method (some [r]) file) file method) ∧
    (∀ (s : Nat) (ep : EndPosition), file.length < s →
      resolveRange ⟨.index s, ep⟩ file.length = none) ∧
    (∀ (e : Nat) (sp : StartPosition), file.length < e →
      resolveRange ⟨sp, .index e⟩ file.length = none) := by
  have hwhole := serveWhole_spec respResource file method rfl
  have houtcome : servesWholeOutcome (serveWhole respResource file method) file method := by
    refine ⟨hwhole.1, hwhole.2.1, hwhole.2.2.2, hwhole.2.2.1, ?_⟩
    rw [hwhole.1]
    decide
  refine ⟨houtcome, ?_, ?_, fun s ep h => resolveRange_start_gt ep h,
    fun e sp h => resolveRange_end_gt sp h⟩
  · intro ranges hr
    match ranges with
    | [] => exact houtcome
    | [r] => exact absurd (rfl : ([r] : List SyntacticallyCorrectRange).length = 1) hr
    | a :: b :: t => exact houtcome
  · intro r hres
    rw [handleResource_eq_whole_of_none method rfl hres]
    exact houtcome

/-- C4 witness: the theorem at a concrete file, with a two-unit header,
an unresolvable single range, and out-of-bounds indices. -/
theorem invalid_range_serves_whole_witness :
    servesWholeOutcome (handleResource "GET" none [7, 8, 9]) [7, 8, 9] "GET" ∧
    servesWholeOutcome
      (handleResource "GET"
        (some [⟨.index 0, .index 1⟩, ⟨.index 2, .index 3⟩]) [7, 8, 9])
      [7, 8, 9] "GET" ∧
    servesWholeOutcome
      (handleResource "GET" (some [⟨.index 9, .lastByte⟩]) [7, 8, 9])
      [7, 8, 9] "GET" ∧
    resolveRange ⟨.index 9, .lastByte⟩ (List.length [7, 8, 9]) = none ∧
    resolveRange ⟨.index 0, .index 9⟩ (List.length [7, 8, 9]) = none :=
  ⟨(invalid_range_serves_whole "GET" [7, 8, 9]).1,
   (invalid_range_serves_whole "GET" [7, 8, 9]).2.1
     [⟨.index 0, .index 1⟩, ⟨.index 2, .index 3⟩] (by decide),
   (invalid_range_serves_whole "GET" [7, 8, 9]).2.2.1
     ⟨.index 9, .lastByte⟩ (by decide),
   (invalid_range_serves_whole "GET" [7, 8, 9]).2.2.2.1 9 .lastByte (by decide),
   (invalid_range_serves_whole "GET" [7, 8, 9]).2.2.2.2 9 (.index 0) (by decide)⟩

/-- C9: every handler error — decode errors and a failed resource-file
open alike — makes the session write the 400 reply and continue the
keep-alive loop when that write succeeds (closing only when it fails);
and every response the session ever writes has status 200, 206 or 400,
so no 404 and no 500 is ever emitted. -/
theorem handler_error_yields_400_and_status_set :
    (∀ (lines : List (List Char)) (f : Option (List Nat)) (w : Bool) (e : ProcErr),
      processOnce lines f = .error e →
        sessionOnce lines f w =
          (if w then SessionNext.waitingForData else SessionNext.closed,
           [(writtenResp resp400, [])]) ∧
        resp400.status = 400) ∧
    (∀ req : Request,
      ("/resource/mikufans".toList.isPrefixOf (uriPath req.target)) = true →
        handlerCore req none = .error .fileOpen) ∧
    (∀ (lines : List (List Char)) (f : Option (List Nat)) (w : Bool),
      ∀ p ∈ (sessionOnce lines f w).2,
        p.1.status = 200 ∨ p.1.status = 206 ∨ p.1.status = 400) := by
  refine ⟨?_, ?_, ?_⟩
  · intro lines f w e he
    refine ⟨?_, rfl⟩
    simp [sessionOnce, he]
  · intro req hpre
    simp only [handlerCore]
    rw [if_pos hpre]
  · intro lines f w p hp
    unfold sessionOnce at hp
    cases hproc : processOnce lines f with
    | ok h =>
      rw [hproc] at hp
      rcases processOnce_ok_status hproc p hp with hs | hs
      · exact Or.inl hs
      · exact Or.inr (Or.inl hs)
    | error e =>
      rw [hproc] at hp
      simp only [List.mem_singleton] at hp
      subst hp
      exact Or.inr (Or.inr (by rw [writtenResp_status]; rfl))

/-- C9 witness: a request for the resource path with no openable file is
answered 400 and the loop continues; the 400 reply itself is in the
allowed status set. -/
theorem handler_error_yields_400_and_status_set_witness :
    (sessionOnce ["GET /resource/mikufans/x HTTP/1.1".toList, []] none true =
      (if true then SessionNext.waitingForData else SessionNext.closed,
       [(writtenResp resp400, [])]) ∧
     resp400.status = 400) ∧
    handlerCore ⟨"GET", "/resource/mikufans/x", []⟩ none = .error .fileOpen ∧
    (∀ p ∈ (sessionOnce ["GET /resource/mikufans/x HTTP/1.1".toList, []] none true).2,
      p.1.status = 200 ∨ p.1.status = 206 ∨ p.1.status = 400) :=
  ⟨handler_error_yields_400_and_status_set.1
      ["GET /resource/mikufans/x HTTP/1.1".toList, []] none true .fileOpen (by decide),
   handler_error_yields_400_and_status_set.2.1
      ⟨"GET", "/resource/mikufans/x", []⟩ (by decide),
   handler_error_yields_400_and_status_set.2.2
      ["GET /resource/mikufans/x HTTP/1.1".toList, []] none true⟩

/-- C8: decode returns "no request" exactly when the stream yields no
line at all; a well-formed request line plus header lines plus a blank
line parses to a `Request` whose method, target and headers match the
input; and a request line with fewer than three space-separated tokens
yields a parse error (the total parse function returns an `Error` value,
it never aborts). -/
theorem request_handle_parse_correct :
    (∀ lines : List (List Char), parseRequest lines = .ok none ↔ lines = []) ∧
    (∀ (m t : String) (hs : List (String × String)),
      validMethodTok m → validUriTok t → (∀ p ∈ hs, GoodHeader p) →
        parseRequest (mkWellFormedInput m t hs)
          = .ok (some ⟨m, t, hs.foldl (fun a p => insertH a p.1 p.2) []⟩)) ∧
    (∀ (line : List Char) (rest : List (List Char)),
      (splitOnChar ' ' line).length < 3 →
        ∃ e, parseRequest (line :: rest) = .error e) :=
  ⟨parseRequest_none_iff, parseRequest_wellformed, parseRequest_short_line⟩

/-- C8 witness: the empty stream, a concrete two-header request, and the
one-token request line. -/
theorem request_handle_parse_correct_witness :
    (parseRequest [] = .ok none ↔ ([] : List (List Char)) = []) ∧
    parseRequest (mkWellFormedInput "GET" "/x" [("host", "a"), ("range", "bytes=0-1")])
      = .ok (some ⟨"GET", "/x",
          [("host", "a"), ("range", "bytes=0-1")].foldl
            (fun a p => insertH a p.1 p.2) []⟩) ∧
    (∃ e, parseRequest ["GET".toList] = .error e) :=
  ⟨request_handle_parse_correct.1 [],
   request_handle_parse_correct.2.1 "GET" "/x" [("host", "a"), ("range", "bytes=0-1")]
     (by decide) (by decide) (by decide),
   request_handle_parse_correct.2.2 "GET".toList [] (by decide)⟩

/-- C10: a request line whose first three space-separated tokens are a
valid method, a valid URI reference and the literal `HTTP/1.1` parses
successfully even when further space-separated tokens follow; the extra
tokens are never read, so the result does not depend on them. -/
theorem extra_request_line_tokens_ignored
    (m t : String) (extra : List Char)
    (hm : validMethodTok m) (ht : validUriTok t) :
    parseRequest
      ((m.toList ++ ' ' :: (t.toList ++ ' ' :: ("HTTP/1.1".toList ++ ' ' :: extra)))
        :: [[]])
      = .ok (some ⟨m, t, []⟩) := by
  obtain ⟨hmne, hmtok⟩ := hm
  have hmsp : ' ' ∉ m.toList := not_mem_of_all_false hmtok (by decide)
  have ht' : t.toList.all isUriChar = true := ht
  have htsp : ' ' ∉ t.toList := not_mem_of_all_false ht' (by decide)
  have hsplit : splitOnChar ' '
      (m.toList ++ ' ' :: (t.toList ++ ' ' :: ("HTTP/1.1".toList ++ ' ' :: extra)))
      = m.toList :: t.toList :: "HTTP/1.1".toList :: splitOnChar ' ' extra := by
    rw [splitOnChar_append _ hmsp, splitOnChar_append _ htsp,
      splitOnChar_append _ (by decide)]
  have hmeth : methodFromBytes m.toList = some m := by
    unfold methodFromBytes
    rw [if_pos ⟨hmne, hmtok⟩]
    rfl
  have huri : uriParseRef t.toList = some t := by
    unfold uriParseRef
    rw [if_pos ht']
    rfl
  simp only [parseRequest]
  rw [hsplit]
  simp only [hmeth, huri, if_pos rfl]
  simp [parseHeaders]

/-- C10 witness: `GET /x HTTP/1.1 foo bar` parses as `GET /x HTTP/1.1`. -/
theorem extra_request_line_tokens_ignored_witness :
    parseRequest
      (("GET".toList ++ ' ' :: ("/x".toList ++ ' '
        :: ("HTTP/1.1".toList ++ ' ' :: "foo bar".toList))) :: [[]])
      = .ok (some ⟨"GET", "/x", []⟩) :=
  extra_request_line_tokens_ignored "GET" "/x" "foo bar".toList (by decide) (by decide)
